import Mathlib

/-!
Verification of a small ahead-of-time compiler (lexer, recursive-descent
parser, semantic analyzer/lowering to IR, x86-64 NASM code generator)
against its natural-language specification.  The Rust sources are embedded
shallowly: each Rust function becomes a Lean function of the same name,
panics become `Except.error` / `Option.none`, the mutable `label_count`
and symbol tables become explicitly threaded state.
-/

namespace RustKt

set_option maxRecDepth 200000
set_option maxHeartbeats 2000000

/-! ## Lexer (`src/lexer.rs`) -/

/-- Token type, mirroring `enum Token` in `lexer.rs`.  Constructors that
would collide with Lean keywords get a `Tok` suffix. -/
inductive Token where
  | func | letTok | returnTok | ifTok | elseTok
  | intType | stringType
  | ident (s : String)
  | number (n : Int)
  | stringLiteral (s : String)
  | lparen | rparen | lbrace | rbrace | colon | semicolon | comma
  | assign | plus | minus | star | slash
  | greater | less | equalEqual | notEqual
  | eof
deriving Repr, DecidableEq

/-- ASCII lowercasing of a word, embedding Rust's `word.to_lowercase()`.
The lexer only ever feeds it words made of ASCII letters, digits and
underscores, on which `Char.toLower` agrees with Rust's Unicode
lowercasing. -/
def lowerAscii (s : String) : String := String.mk (s.data.map Char.toLower)

/-- `lookup_keyword` from `lexer.rs`: the word is lowercased before the
comparison against the fixed keyword/type table. -/
def lookup_keyword (word : String) : Token :=
  match lowerAscii word with
  | "func" => Token.func
  | "let" => Token.letTok
  | "return" => Token.returnTok
  | "if" => Token.ifTok
  | "else" => Token.elseTok
  | "int" => Token.intType
  | "string" => Token.stringType
  | _ => Token.ident word

/-- Numeric value of a digit run (Rust `str::parse::<i64>` on an
all-digit string computes exactly this, failing iff it exceeds
`i64::MAX`). -/
def digitsToNat (cs : List Char) : Nat :=
  cs.foldl (fun a c => a * 10 + (c.toNat - 48)) 0

/-- `i64::MAX`. -/
def i64Max : Nat := 9223372036854775807

/-- Characters that may continue an identifier
(`is_ascii_alphanumeric() || == '_'`). -/
def identChar (c : Char) : Bool := c.isAlphanum || c = '_'

/-- Core of `lex` from `lexer.rs`, over the character list.  `none`
models the `panic!` of `num.parse().unwrap()` on an overflowing numeric
literal; every other input yields `some` tokens ending in `Token.eof`.
Unterminated string literals read to the end of input; unrecognized
characters are silently skipped; a bare `!` emits nothing.

The first argument is an upper bound on the number of characters left,
seeded with the input length by `lex`; every iteration of the Rust
`while` loop consumes at least one character while the bound decreases
by exactly one, so the exhaustion fallback is unreachable (this is
proved by `lexCore_none_iff`, which characterizes all `none` results as
numeric overflow).  The body of the Rust `while` loop is the
non-recursive `lexStep`, with the continuation passed explicitly. -/
def lexStep (k : List Char → Option (List Token)) (c : Char)
    (cs : List Char) : Option (List Token) :=
  if c = ' ' || c = '\n' || c = '\t' || c = '\r' then
    k cs
  else if c = '(' then (k cs).map (fun ts => Token.lparen :: ts)
  else if c = ')' then (k cs).map (fun ts => Token.rparen :: ts)
  else if c = '{' then (k cs).map (fun ts => Token.lbrace :: ts)
  else if c = '}' then (k cs).map (fun ts => Token.rbrace :: ts)
  else if c = ':' then (k cs).map (fun ts => Token.colon :: ts)
  else if c = ';' then (k cs).map (fun ts => Token.semicolon :: ts)
  else if c = ',' then (k cs).map (fun ts => Token.comma :: ts)
  else if c = '+' then (k cs).map (fun ts => Token.plus :: ts)
  else if c = '-' then (k cs).map (fun ts => Token.minus :: ts)
  else if c = '*' then (k cs).map (fun ts => Token.star :: ts)
  else if c = '/' then (k cs).map (fun ts => Token.slash :: ts)
  else if c = '=' then
    if cs.head? = some '=' then
      (k (cs.drop 1)).map (fun ts => Token.equalEqual :: ts)
    else (k cs).map (fun ts => Token.assign :: ts)
  else if c = '!' then
    if cs.head? = some '=' then
      (k (cs.drop 1)).map (fun ts => Token.notEqual :: ts)
    else k cs
  else if c = '>' then (k cs).map (fun ts => Token.greater :: ts)
  else if c = '<' then (k cs).map (fun ts => Token.less :: ts)
  else if c = '"' then
    (k ((cs.dropWhile (fun ch => ch ≠ '"')).drop 1)).map
      (fun ts => Token.stringLiteral (String.mk (cs.takeWhile (fun ch => ch ≠ '"'))) :: ts)
  else if c.isDigit then
    if i64Max < digitsToNat (c :: cs.takeWhile Char.isDigit) then none
    else
      (k (cs.dropWhile Char.isDigit)).map
        (fun ts => Token.number (Int.ofNat (digitsToNat (c :: cs.takeWhile Char.isDigit))) :: ts)
  else if c.isAlpha then
    (k (cs.dropWhile identChar)).map
      (fun ts => lookup_keyword (String.mk (c :: cs.takeWhile identChar)) :: ts)
  else
    k cs

/-- The fuel-indexed recursion over `lexStep`. -/
def lexCore : Nat → List Char → Option (List Token)
  | _, [] => some [Token.eof]
  | 0, _ :: _ => none
  | n + 1, c :: cs => lexStep (lexCore n) c cs

/-- `lex` from `lexer.rs`. -/
def lex (input : String) : Option (List Token) := lexCore input.data.length input.data

/-- The values of the digit runs that `lexCore` scans in numeric-literal
position (instrumentation of the same scan, with the same branch
structure; digits inside string literals or identifiers are not
scanned as numbers).  Takes the same length bound as `lexCore`; its
per-character step is the non-recursive `scanStep`, with branch
structure identical to `lexStep`. -/
def scanStep (k : List Char → List Nat) (c : Char) (cs : List Char) :
    List Nat :=
  if c = ' ' || c = '\n' || c = '\t' || c = '\r' then k cs
  else if c = '(' then k cs
  else if c = ')' then k cs
  else if c = '{' then k cs
  else if c = '}' then k cs
  else if c = ':' then k cs
  else if c = ';' then k cs
  else if c = ',' then k cs
  else if c = '+' then k cs
  else if c = '-' then k cs
  else if c = '*' then k cs
  else if c = '/' then k cs
  else if c = '=' then
    if cs.head? = some '=' then k (cs.drop 1) else k cs
  else if c = '!' then
    if cs.head? = some '=' then k (cs.drop 1) else k cs
  else if c = '>' then k cs
  else if c = '<' then k cs
  else if c = '"' then k ((cs.dropWhile (fun ch => ch ≠ '"')).drop 1)
  else if c.isDigit then
    digitsToNat (c :: cs.takeWhile Char.isDigit) :: k (cs.dropWhile Char.isDigit)
  else if c.isAlpha then k (cs.dropWhile identChar)
  else k cs

/-- The fuel-indexed recursion over `scanStep`. -/
def scanned_nums : Nat → List Char → List Nat
  | _, [] => []
  | 0, _ :: _ => []
  | n + 1, c :: cs => scanStep (scanned_nums n) c cs

/-- The maximal runs of consecutive ASCII digits occurring anywhere in
the raw input (including inside identifiers and string literals).  Used
to state the spec's claim that lexing fails whenever such a run
overflows `i64`.  Takes the same kind of length bound as `lexCore`. -/
def digit_runs : Nat → List Char → List (List Char)
  | _, [] => []
  | 0, _ :: _ => []
  | n + 1, c :: cs =>
    if c.isDigit then
      (c :: cs.takeWhile Char.isDigit) :: digit_runs n (cs.dropWhile Char.isDigit)
    else digit_runs n cs

/-- The claim's syntactic overflow condition: the input contains a
maximal run of ASCII digits whose value exceeds `i64::MAX`. -/
def hasOverflowDigitRun (input : String) : Bool :=
  (digit_runs input.data.length input.data).any (fun r => decide (i64Max < digitsToNat r))

/-! ## Parser (`src/parser.rs`) -/

/-- `enum TypeName`. -/
inductive TypeName where
  | int
  | string
deriving Repr, DecidableEq

/-- `enum Expr` (AST expressions). -/
inductive Expr where
  | number (n : Int)
  | stringLiteral (s : String)
  | var (name : String)
  | binary (left : Expr) (op : String) (right : Expr)
  | call (name : String) (args : List Expr)
deriving Repr

/-- `enum Stmt` (AST statements). -/
inductive Stmt where
  | letStmt (name : String) (t : TypeName) (e : Expr)
  | exprStmt (e : Expr)
  | returnStmt (e : Expr)
  | ifStmt (cond : Expr) (thenBody : List Stmt) (elseBody : List Stmt)
deriving Repr

/-- `struct Function`. -/
structure Function where
  name : String
  params : List (String × TypeName)
  ret_type : TypeName
  body : List Stmt
deriving Repr

/-- `struct Program`. -/
structure Program where
  funcs : List Function
deriving Repr

/-- `Parser::peek` / the `tokens[pos]` indexing (a Rust out-of-bounds
index panic becomes an error). -/
def ptok (tokens : List Token) (pos : Nat) : Except String Token :=
  match tokens.get? pos with
  | some t => Except.ok t
  | none => Except.error "token index out of range"

/-- `Parser::expect`: consume one token and require it to be `expected`. -/
def pexpect (tokens : List Token) (pos : Nat) (expected : Token) :
    Except String Nat := do
  let t ← ptok tokens pos
  if t = expected then Except.ok (pos + 1)
  else Except.error "Expected token mismatch"

/-- `Parser::expect_ident`. -/
def pexpect_ident (tokens : List Token) (pos : Nat) :
    Except String (String × Nat) := do
  let t ← ptok tokens pos
  match t with
  | Token.ident name => Except.ok (name, pos + 1)
  | _ => Except.error "Expected identifier"

/-- `Parser::parse_type`. -/
def pparse_type (tokens : List Token) (pos : Nat) :
    Except String (TypeName × Nat) := do
  let t ← ptok tokens pos
  match t with
  | Token.intType => Except.ok (TypeName.int, pos + 1)
  | Token.stringType => Except.ok (TypeName.string, pos + 1)
  | _ => Except.error "Expected type"

/-- The operator match at the head of `parse_binary`'s loop: which
tokens continue the flat binary-operator loop, and the operator string
they contribute. -/
def binop_of_token : Token → Option String
  | Token.plus => some "+"
  | Token.minus => some "-"
  | Token.star => some "*"
  | Token.slash => some "/"
  | Token.greater => some ">"
  | Token.less => some "<"
  | Token.equalEqual => some "=="
  | Token.notEqual => some "!="
  | _ => none

mutual

/-- `Parser::parse_program`: functions until end-of-stream.  All parse
functions take explicit fuel; the sources recurse on a strictly
advancing token position, and every concrete run below is given ample
fuel. -/
def parse_program (fuel : Nat) (tokens : List Token) (pos : Nat) :
    Except String (Program × Nat) :=
  match fuel with
  | 0 => Except.error "out of fuel"
  | fuel + 1 => do
    let (funcs, pos) ← parse_functions fuel tokens pos
    Except.ok (Program.mk funcs, pos)

/-- The `while !EOF { parse_function }` loop of `parse_program`. -/
def parse_functions (fuel : Nat) (tokens : List Token) (pos : Nat) :
    Except String (List Function × Nat) :=
  match fuel with
  | 0 => Except.error "out of fuel"
  | fuel + 1 => do
    let t ← ptok tokens pos
    if t = Token.eof then Except.ok ([], pos)
    else do
      let (f, pos) ← parse_function fuel tokens pos
      let (fs, pos) ← parse_functions fuel tokens pos
      Except.ok (f :: fs, pos)
termination_by structural fuel

/-- `Parser::parse_function`. -/
def parse_function (fuel : Nat) (tokens : List Token) (pos : Nat) :
    Except String (Function × Nat) :=
  match fuel with
  | 0 => Except.error "out of fuel"
  | fuel + 1 => do
    let t ← ptok tokens pos
    match t with
    | Token.func => do
      let pos := pos + 1
      let (name, pos) ← pexpect_ident tokens pos
      let pos ← pexpect tokens pos Token.lparen
      let (params, pos) ← parse_params fuel tokens pos
      let pos ← pexpect tokens pos Token.rparen
      let pos ← pexpect tokens pos Token.colon
      let (ret_type, pos) ← pparse_type tokens pos
      let pos ← pexpect tokens pos Token.lbrace
      let (body, pos) ← parse_stmts fuel tokens pos
      let pos ← pexpect tokens pos Token.rbrace
      Except.ok (Function.mk name params ret_type body, pos)
    | _ => Except.error "Expected func"

/-- The parameter loop of `parse_function` (`while peek != RParen`). -/
def parse_params (fuel : Nat) (tokens : List Token) (pos : Nat) :
    Except String (List (String × TypeName) × Nat) :=
  match fuel with
  | 0 => Except.error "out of fuel"
  | fuel + 1 => do
    let t ← ptok tokens pos
    if t = Token.rparen then Except.ok ([], pos)
    else do
      let (pname, pos) ← pexpect_ident tokens pos
      let pos ← pexpect tokens pos Token.colon
      let (ptype, pos) ← pparse_type tokens pos
      let t ← ptok tokens pos
      let pos := if t = Token.comma then pos + 1 else pos
      let (rest, pos) ← parse_params fuel tokens pos
      Except.ok ((pname, ptype) :: rest, pos)
termination_by structural fuel

/-- The statement loop over a `{ ... }` body (`while peek != RBrace`). -/
def parse_stmts (fuel : Nat) (tokens : List Token) (pos : Nat) :
    Except String (List Stmt × Nat) :=
  match fuel with
  | 0 => Except.error "out of fuel"
  | fuel + 1 => do
    let t ← ptok tokens pos
    if t = Token.rbrace then Except.ok ([], pos)
    else do
      let (s, pos) ← parse_stmt fuel tokens pos
      let (rest, pos) ← parse_stmts fuel tokens pos
      Except.ok (s :: rest, pos)
termination_by structural fuel

/-- `Parser::parse_stmt`. -/
def parse_stmt (fuel : Nat) (tokens : List Token) (pos : Nat) :
    Except String (Stmt × Nat) :=
  match fuel with
  | 0 => Except.error "out of fuel"
  | fuel + 1 => do
    let t ← ptok tokens pos
    match t with
    | Token.letTok => parse_let fuel tokens pos
    | Token.returnTok => parse_return fuel tokens pos
    | Token.ifTok => parse_if fuel tokens pos
    | _ => parse_expr_stmt fuel tokens pos
termination_by structural fuel

/-- `Parser::parse_let`. -/
def parse_let (fuel : Nat) (tokens : List Token) (pos : Nat) :
    Except String (Stmt × Nat) :=
  match fuel with
  | 0 => Except.error "out of fuel"
  | fuel + 1 => do
    let pos := pos + 1
    let (name, pos) ← pexpect_ident tokens pos
    let pos ← pexpect tokens pos Token.colon
    let (t, pos) ← pparse_type tokens pos
    let pos ← pexpect tokens pos Token.assign
    let (e, pos) ← parse_expr fuel tokens pos
    let pos ← pexpect tokens pos Token.semicolon
    Except.ok (Stmt.letStmt name t e, pos)

/-- `Parser::parse_return`. -/
def parse_return (fuel : Nat) (tokens : List Token) (pos : Nat) :
    Except String (Stmt × Nat) :=
  match fuel with
  | 0 => Except.error "out of fuel"
  | fuel + 1 => do
    let pos := pos + 1
    let (e, pos) ← parse_expr fuel tokens pos
    let pos ← pexpect tokens pos Token.semicolon
    Except.ok (Stmt.returnStmt e, pos)

/-- `Parser::parse_if` (mandatory `else`). -/
def parse_if (fuel : Nat) (tokens : List Token) (pos : Nat) :
    Except String (Stmt × Nat) :=
  match fuel with
  | 0 => Except.error "out of fuel"
  | fuel + 1 => do
    let pos := pos + 1
    let (cond, pos) ← parse_expr fuel tokens pos
    let pos ← pexpect tokens pos Token.lbrace
    let (thenBody, pos) ← parse_stmts fuel tokens pos
    let pos ← pexpect tokens pos Token.rbrace
    let pos ← pexpect tokens pos Token.elseTok
    let pos ← pexpect tokens pos Token.lbrace
    let (elseBody, pos) ← parse_stmts fuel tokens pos
    let pos ← pexpect tokens pos Token.rbrace
    Except.ok (Stmt.ifStmt cond thenBody elseBody, pos)
termination_by structural fuel

/-- `Parser::parse_expr_stmt`. -/
def parse_expr_stmt (fuel : Nat) (tokens : List Token) (pos : Nat) :
    Except String (Stmt × Nat) :=
  match fuel with
  | 0 => Except.error "out of fuel"
  | fuel + 1 => do
    let (e, pos) ← parse_expr fuel tokens pos
    let pos ← pexpect tokens pos Token.semicolon
    Except.ok (Stmt.exprStmt e, pos)

/-- `Parser::parse_expr` (delegates to `parse_binary`). -/
def parse_expr (fuel : Nat) (tokens : List Token) (pos : Nat) :
    Except String (Expr × Nat) :=
  match fuel with
  | 0 => Except.error "out of fuel"
  | fuel + 1 => parse_binary fuel tokens pos
termination_by structural fuel

/-- `Parser::parse_binary`: one `parse_primary`, then the flat
left-associative operator loop. -/
def parse_binary (fuel : Nat) (tokens : List Token) (pos : Nat) :
    Except String (Expr × Nat) :=
  match fuel with
  | 0 => Except.error "out of fuel"
  | fuel + 1 => do
    let (left, pos) ← parse_primary fuel tokens pos
    parse_binloop fuel tokens pos left
termination_by structural fuel

/-- The `loop { ... }` inside `parse_binary`: while the next token is a
binary operator, consume it, parse one primary, and left-nest. -/
def parse_binloop (fuel : Nat) (tokens : List Token) (pos : Nat)
    (left : Expr) : Except String (Expr × Nat) :=
  match fuel with
  | 0 => Except.error "out of fuel"
  | fuel + 1 => do
    let t ← ptok tokens pos
    match binop_of_token t with
    | none => Except.ok (left, pos)
    | some op => do
      let (right, pos) ← parse_primary fuel tokens (pos + 1)
      parse_binloop fuel tokens pos (Expr.binary left op right)
termination_by structural fuel

/-- `Parser::parse_primary`. -/
def parse_primary (fuel : Nat) (tokens : List Token) (pos : Nat) :
    Except String (Expr × Nat) :=
  match fuel with
  | 0 => Except.error "out of fuel"
  | fuel + 1 => do
    let t ← ptok tokens pos
    match t with
    | Token.number n => Except.ok (Expr.number n, pos + 1)
    | Token.stringLiteral s => Except.ok (Expr.stringLiteral s, pos + 1)
    | Token.ident name => do
      let pos := pos + 1
      let t2 ← ptok tokens pos
      if t2 = Token.lparen then do
        let pos := pos + 1
        let (args, pos) ← parse_args fuel tokens pos
        let pos ← pexpect tokens pos Token.rparen
        Except.ok (Expr.call name args, pos)
      else Except.ok (Expr.var name, pos)
    | Token.lparen => do
      let pos := pos + 1
      let (e, pos) ← parse_expr fuel tokens pos
      let pos ← pexpect tokens pos Token.rparen
      Except.ok (e, pos)
    | _ => Except.error "Unexpected token in primary"
termination_by structural fuel

/-- The call-argument loop of `parse_primary` (`while peek != RParen`). -/
def parse_args (fuel : Nat) (tokens : List Token) (pos : Nat) :
    Except String (List Expr × Nat) :=
  match fuel with
  | 0 => Except.error "out of fuel"
  | fuel + 1 => do
    let t ← ptok tokens pos
    if t = Token.rparen then Except.ok ([], pos)
    else do
      let (a, pos) ← parse_expr fuel tokens pos
      let t ← ptok tokens pos
      let pos := if t = Token.comma then pos + 1 else pos
      let (rest, pos) ← parse_args fuel tokens pos
      Except.ok (a :: rest, pos)


termination_by structural fuel
end

/-! ## Semantic analyzer (`src/semantic.rs`) -/

/-- `enum IRExpr` from `semantic.rs`. -/
inductive IRExpr where
  | var (name : String)
  | int (n : Int)
  | str (s : String)
  | binary (left : IRExpr) (op : String) (right : IRExpr)
  | call (name : String) (args : List IRExpr)
deriving Repr

/-- `enum IR` from `semantic.rs` (note: there is no `Println`
constructor). -/
inductive IR where
  | loadVar (name : String)
  | storeVar (name : String) (e : IRExpr)
  | literalInt (n : Int)
  | literalString (s : String)
  | binaryOp (left : IRExpr) (op : String) (right : IRExpr)
  | callFunc (name : String) (args : List IRExpr)
  | ifIR (cond : IRExpr) (thenBody : List IR) (elseBody : List IR)
  | returnIR (e : IRExpr)
deriving Repr

/-- `struct IRFunction`. -/
structure IRFunction where
  name : String
  params : List (String × TypeName)
  ret_type : TypeName
  body : List IR
deriving Repr

/-- `struct IRProgram`. -/
structure IRProgram where
  funcs : List IRFunction
deriving Repr

/-- `BUILTIN_FUNCS`. -/
def BUILTIN_FUNCS : List String := ["println", "print"]

/-- The per-function symbol table (Rust `HashMap<String, TypeName>`):
association list where insertion conses, so lookup finds the newest
binding (`HashMap::insert` overwrite semantics). -/
def Scope := List (String × TypeName)

/-- `HashMap::get` on the scope. -/
def scope_get (scope : Scope) (name : String) : Option TypeName :=
  match scope with
  | [] => none
  | (k, v) :: rest => if k = name then some v else scope_get rest name

/-- `struct SemanticAnalyzer`: the `map` and `builtins` fields are
derived views of the function list, so only the list is stored. -/
structure SemanticAnalyzer where
  functions : List Function

/-- `self.map.get(name)`: the `HashMap<String, Function>` is built by
inserting every function in declaration order, so a duplicate name is
overwritten by the later function — lookup finds the last one. -/
def find_func (a : SemanticAnalyzer) (name : String) : Option Function :=
  a.functions.reverse.find? (fun f => f.name = name)

/-- `self.builtins.contains(name)`. -/
def is_builtin (name : String) : Bool := BUILTIN_FUNCS.contains name

/-- `SemanticAnalyzer::expr_type`: type computation; `Except.error`
models `panic!`.  Structural on the expression: the call case does not
recurse into the arguments at all. -/
def expr_type (a : SemanticAnalyzer) (e : Expr) (scope : Scope) :
    Except String TypeName :=
  match e with
  | Expr.number _ => Except.ok TypeName.int
  | Expr.stringLiteral _ => Except.ok TypeName.string
  | Expr.var name =>
    match scope_get scope name with
    | some t => Except.ok t
    | none => Except.error ("Unknown variable " ++ name)
  | Expr.binary l op r => do
    let lt ← expr_type a l scope
    let rt ← expr_type a r scope
    if op = "+" && lt = TypeName.string && rt = TypeName.string then
      Except.ok TypeName.string
    else if lt ≠ TypeName.int || rt ≠ TypeName.int then
      Except.error ("Operator " ++ op ++ " requires int operands")
    else Except.ok TypeName.int
  | Expr.call name _ =>
    if is_builtin name then Except.ok TypeName.int
    else
      match find_func a name with
      | some f => Except.ok f.ret_type
      | none => Except.error ("Unknown function " ++ name)

/-- The per-argument type check loop inside `analyze_expr`'s
user-defined-call case (`args` zipped against the parameters after the
arity check). -/
def check_arg_types (a : SemanticAnalyzer) (args : List Expr)
    (params : List (String × TypeName)) (scope : Scope) :
    Except String Unit :=
  match args, params with
  | [], _ => Except.ok ()
  | arg :: args, (_, pt) :: params => do
    let at_ ← expr_type a arg scope
    if at_ = pt then check_arg_types a args params scope
    else Except.error "Type mismatch for argument"
  | _ :: _, [] => Except.error "argument index out of range"

mutual

/-- `SemanticAnalyzer::analyze_expr`: lowers an AST expression to an
`IRExpr`.  Builtin calls are allowed immediately, with no arity or
argument-type check; `Var` is lowered without consulting the scope.
The fuel argument only bounds the recursion depth (one unit per nested
call); concrete runs are given ample fuel. -/
def analyze_expr (a : SemanticAnalyzer) : Nat → Expr → Scope →
    Except String IRExpr
  | 0, _, _ => Except.error "out of fuel"
  | fuel + 1, e, scope =>
    match e with
    | Expr.number n => Except.ok (IRExpr.int n)
    | Expr.stringLiteral s => Except.ok (IRExpr.str s)
    | Expr.var name => Except.ok (IRExpr.var name)
    | Expr.binary l op r => do
      let left ← analyze_expr a fuel l scope
      let right ← analyze_expr a fuel r scope
      Except.ok (IRExpr.binary left op right)
    | Expr.call name args =>
      if is_builtin name then do
        let irArgs ← analyze_exprs a fuel args scope
        Except.ok (IRExpr.call name irArgs)
      else
        match find_func a name with
        | none => Except.error ("Unknown function " ++ name)
        | some f =>
          if f.params.length ≠ args.length then
            Except.error "Argument count mismatch"
          else do
            let _ ← check_arg_types a args f.params scope
            let irArgs ← analyze_exprs a fuel args scope
            Except.ok (IRExpr.call name irArgs)
termination_by structural fuel => fuel

/-- `args.iter().map(|a| self.analyze_expr(a, scope)).collect()`. -/
def analyze_exprs (a : SemanticAnalyzer) : Nat → List Expr → Scope →
    Except String (List IRExpr)
  | 0, _, _ => Except.error "out of fuel"
  | fuel + 1, es, scope =>
    match es with
    | [] => Except.ok []
    | e :: es => do
      let ir ← analyze_expr a fuel e scope
      let irs ← analyze_exprs a fuel es scope
      Except.ok (ir :: irs)
termination_by structural fuel => fuel

end

mutual

/-- `SemanticAnalyzer::analyze_stmt`: lowers one statement, threading
the mutable scope (an `if`'s then-branch insertions stay visible in the
else-branch and afterwards, exactly as with the shared `&mut HashMap`).
Fueled like `analyze_expr`. -/
def analyze_stmt (a : SemanticAnalyzer) : Nat → Stmt → Scope → TypeName →
    Except String (List IR × Scope)
  | 0, _, _, _ => Except.error "out of fuel"
  | fuel + 1, stmt, scope, expectedRet =>
    match stmt with
    | Stmt.letStmt name t e => do
      let et ← expr_type a e scope
      if et ≠ t then Except.error ("Type error for variable " ++ name)
      else do
        let ir ← analyze_expr a fuel e scope
        Except.ok ([IR.storeVar name ir], (name, t) :: scope)
    | Stmt.returnStmt e => do
      let et ← expr_type a e scope
      if et ≠ expectedRet then Except.error "Return type mismatch"
      else do
        let ir ← analyze_expr a fuel e scope
        Except.ok ([IR.returnIR ir], scope)
    | Stmt.exprStmt e => do
      let ir ← analyze_expr a fuel e scope
      Except.ok ([IR.storeVar "_expr_tmp" ir], scope)
    | Stmt.ifStmt cond thenBody elseBody => do
      let ct ← expr_type a cond scope
      if ct ≠ TypeName.int then Except.error "If condition must be int"
      else do
        let condIr ← analyze_expr a fuel cond scope
        let (thenIr, scope) ← analyze_stmts a fuel thenBody scope expectedRet
        let (elseIr, scope) ← analyze_stmts a fuel elseBody scope expectedRet
        Except.ok ([IR.ifIR condIr thenIr elseIr], scope)
termination_by structural fuel => fuel

/-- The statement loop of `analyze_function` / the branch loops of the
`If` case (`ir_body.extend(ir)` over the statements in order). -/
def analyze_stmts (a : SemanticAnalyzer) : Nat → List Stmt → Scope →
    TypeName → Except String (List IR × Scope)
  | 0, _, _, _ => Except.error "out of fuel"
  | fuel + 1, stmts, scope, expectedRet =>
    match stmts with
    | [] => Except.ok ([], scope)
    | s :: rest => do
      let (ir, scope) ← analyze_stmt a fuel s scope expectedRet
      let (irRest, scope) ← analyze_stmts a fuel rest scope expectedRet
      Except.ok (ir ++ irRest, scope)
termination_by structural fuel => fuel

end

/-- `SemanticAnalyzer::analyze_function`: seeds the scope with the
parameters (in order, later duplicates overwriting), then lowers the
body. -/
def analyze_function (a : SemanticAnalyzer) (fuel : Nat) (f : Function) :
    Except String IRFunction := do
  let scope := f.params.foldl (fun sc p => (p.1, p.2) :: sc) ([] : Scope)
  let (irBody, _) ← analyze_stmts a fuel f.body scope f.ret_type
  Except.ok (IRFunction.mk f.name f.params f.ret_type irBody)

/-- The function loop of `SemanticAnalyzer::analyze`. -/
def analyze_functions (a : SemanticAnalyzer) (fuel : Nat) :
    List Function → Except String (List IRFunction)
  | [] => Except.ok []
  | f :: rest => do
    let irf ← analyze_function a fuel f
    let irRest ← analyze_functions a fuel rest
    Except.ok (irf :: irRest)

/-- `SemanticAnalyzer::new` + `analyze`. -/
def analyze (fuel : Nat) (program : Program) : Except String IRProgram := do
  let a := SemanticAnalyzer.mk program.funcs
  let funcs ← analyze_functions a fuel a.functions
  Except.ok (IRProgram.mk funcs)

/-! ## Code generator (`src/codegen.rs`)

The mutable `label_count` of `struct Codegen` is threaded explicitly as
a `Nat`; `panic!`s become `Except.error`. -/

/-- `Codegen::new_label`: increments the counter, then formats
`prefix_count`. -/
def new_label (p : String) (lc : Nat) : String × Nat :=
  (p ++ "_" ++ toString (lc + 1), lc + 1)

/-- `HashMap::get` on the locals table. -/
def locals_get (locals : List (String × Int)) (name : String) : Option Int :=
  match locals with
  | [] => none
  | (k, v) :: rest => if k = name then some v else locals_get rest name

/-- `locals_offset` from `codegen.rs`: formats the offset, panicking on
an unknown local. -/
def locals_offset (name : String) (locals : List (String × Int)) :
    Except String String :=
  match locals_get locals name with
  | some v => Except.ok (toString v)
  | none => Except.error ("Unknown local variable " ++ name)

/-- `collect_locals` from `codegen.rs`: the recursive pre-scan that
assigns each not-yet-seen `StoreVar` name the current offset and steps
the offset by −8, descending into both branches of every `If`.  The
fuel bounds the recursion (one unit per processed instruction and per
branch descent); `cl_fuel` computes a sufficient amount, and
`gen_function` (whose concrete runs get ample fuel) seeds it. -/
def collect_locals : Nat → List IR → List (String × Int) → Int →
    List (String × Int) × Int
  | 0, _, locals, offset => (locals, offset)
  | _ + 1, [], locals, offset => (locals, offset)
  | fuel + 1, IR.storeVar name _ :: rest, locals, offset =>
    let st :=
      if (locals_get locals name).isSome then (locals, offset)
      else (locals ++ [(name, offset)], offset - 8)
    collect_locals fuel rest st.1 st.2
  | fuel + 1, IR.ifIR _ thenBody elseBody :: rest, locals, offset =>
    let st1 := collect_locals fuel thenBody locals offset
    let st2 := collect_locals fuel elseBody st1.1 st1.2
    collect_locals fuel rest st2.1 st2.2
  | fuel + 1, _ :: rest, locals, offset => collect_locals fuel rest locals offset
termination_by structural fuel => fuel

/-- A sufficient fuel for `collect_locals` on a body. -/
def cl_fuel : List IR → Nat
  | [] => 0
  | IR.ifIR _ thenBody elseBody :: rest =>
    1 + max (cl_fuel thenBody) (max (cl_fuel elseBody) (cl_fuel rest))
  | _ :: rest => 1 + cl_fuel rest

/-- `gen_string_literal`: a fresh `str_N` label and its own
`.rodata` entry on every call (no deduplication). -/
def gen_string_literal (s : String) (lc : Nat) : String × Nat :=
  let (label, lc) := new_label "str" lc
  ("section .rodata\n" ++ label ++ ": db \"" ++ s ++ "\", 0\nsection .text\n    lea rax, [" ++ label ++ "]\n",
   lc)

/-- The fixed argument-register sequence of `gen_expr`'s call case. -/
def CALL_REGS : List String := ["rdi", "rsi", "rdx", "rcx", "r8", "r9"]

/-- The `for i in (0..args.len()).rev() { pop regs[i] }` loop: pops into
`regs[n-1], ..., regs[0]`; indexing past the six registers is a panic. -/
def pop_args : Nat → Except String String
  | 0 => Except.ok ""
  | n + 1 =>
    match CALL_REGS.get? n with
    | none => Except.error "register index out of range"
    | some r => do
      let rest ← pop_args n
      Except.ok ("    pop " ++ r ++ "\n" ++ rest)

/-- The operator dispatch inside `gen_expr`'s `Binary` case: left is in
`rcx`, right in `rax` when these sequences run. -/
def binop_asm (op : String) : Except String String :=
  if op = "+" then Except.ok "    add rax, rcx\n"
  else if op = "-" then Except.ok "    sub rcx, rax\n    mov rax, rcx\n"
  else if op = "*" then Except.ok "    imul rax, rcx\n"
  else if op = "/" then
    Except.ok "    mov rdx, 0\n    mov rbx, rax\n    mov rax, rcx\n    div rbx\n"
  else if op = ">" then Except.ok "    cmp rcx, rax\n    setg al\n    movzx rax, al\n"
  else if op = "<" then Except.ok "    cmp rcx, rax\n    setl al\n    movzx rax, al\n"
  else if op = "==" then Except.ok "    cmp rcx, rax\n    sete al\n    movzx rax, al\n"
  else if op = "!=" then Except.ok "    cmp rcx, rax\n    setne al\n    movzx rax, al\n"
  else Except.error ("Unsupported op " ++ op)

mutual

/-- `Codegen::gen_expr`.  Fueled like the analyzer. -/
def gen_expr (locals : List (String × Int)) : Nat → IRExpr → Nat →
    Except String (String × Nat)
  | 0, _, _ => Except.error "out of fuel"
  | fuel + 1, e, lc =>
    match e with
    | IRExpr.int v => Except.ok ("    mov rax, " ++ toString v ++ "\n", lc)
    | IRExpr.str s => Except.ok (gen_string_literal s lc)
    | IRExpr.var name => do
      let off ← locals_offset name locals
      Except.ok ("    mov rax, [rbp" ++ off ++ "]\n", lc)
    | IRExpr.binary a op b => do
      let (sa, lc) ← gen_expr locals fuel a lc
      let (sb, lc) ← gen_expr locals fuel b lc
      let opcode ← binop_asm op
      Except.ok (sa ++ "    push rax\n" ++ sb ++ "    pop rcx\n" ++ opcode, lc)
    | IRExpr.call name args =>
      if name = "print" then gen_print locals fuel args lc
      else do
        let (argsCode, lc) ← gen_push_args locals fuel args lc
        let pops ← pop_args args.length
        Except.ok (argsCode ++ pops ++ "    call " ++ name ++ "\n", lc)
termination_by structural fuel => fuel

/-- The argument loop of `gen_expr`'s call case: evaluate each argument
and push it. -/
def gen_push_args (locals : List (String × Int)) : Nat → List IRExpr →
    Nat → Except String (String × Nat)
  | 0, _, _ => Except.error "out of fuel"
  | fuel + 1, args, lc =>
    match args with
    | [] => Except.ok ("", lc)
    | a :: rest => do
      let (sa, lc) ← gen_expr locals fuel a lc
      let (srest, lc) ← gen_push_args locals fuel rest lc
      Except.ok (sa ++ "    push rax\n" ++ srest, lc)
termination_by structural fuel => fuel

/-- `Codegen::gen_print`: only reached for calls literally named
`print`; allocates a `print_string_N` label, then either emits the
write-syscall block with a hard-coded `mov rdx, 64` length for a string
literal argument, or evaluates the argument and leaves a
`// TODO: int printing` comment. -/
def gen_print (locals : List (String × Int)) : Nat → List IRExpr → Nat →
    Except String (String × Nat)
  | 0, _, _ => Except.error "out of fuel"
  | fuel + 1, args, lc =>
    match args with
    | [arg] =>
      let (label, lc) := new_label "print_string" lc
      match arg with
      | IRExpr.str s =>
        Except.ok
          ("section .rodata\n" ++ label ++ ": db \"" ++ s ++ "\", 10, 0\nsection .text\n" ++
           "    lea rsi, [" ++ label ++ "]\n    mov rdi, 1\n    mov rdx, 64\n    mov rax, 1\n    syscall\n",
           lc)
      | other => do
        let (code, lc) ← gen_expr locals fuel other lc
        Except.ok (code ++ "    // TODO: int printing\n", lc)
    | _ => Except.error "print() requires 1 argument"
termination_by structural fuel => fuel

end

mutual

/-- `Codegen::gen_ir`.  Fueled like the analyzer. -/
def gen_ir (locals : List (String × Int)) : Nat → IR → Nat →
    Except String (String × Nat)
  | 0, _, _ => Except.error "out of fuel"
  | fuel + 1, ir, lc =>
    match ir with
    | IR.storeVar name e => do
      let (val, lc) ← gen_expr locals fuel e lc
      let off ← locals_offset name locals
      Except.ok (val ++ "    mov [rbp" ++ off ++ "], rax\n", lc)
    | IR.returnIR e => do
      let (val, lc) ← gen_expr locals fuel e lc
      Except.ok (val ++ "    mov rsp, rbp\n    pop rbp\n    ret\n", lc)
    | IR.ifIR cond thenBody elseBody => do
      let (condCode, lc) ← gen_expr locals fuel cond lc
      let (lElse, lc) := new_label "else" lc
      let (lEnd, lc) := new_label "endif" lc
      let (thenCode, lc) ← gen_irs locals fuel thenBody lc
      let (elseCode, lc) ← gen_irs locals fuel elseBody lc
      Except.ok
        (condCode ++ "    cmp rax, 0\n    je " ++ lElse ++ "\n" ++
         thenCode ++ "    jmp " ++ lEnd ++ "\n" ++
         lElse ++ ":\n" ++ elseCode ++ lEnd ++ ":\n",
         lc)
    | IR.loadVar name => do
      let off ← locals_offset name locals
      Except.ok ("    mov rax, [rbp" ++ off ++ "]\n", lc)
    | _ => Except.ok ("// unsupported IR\n", lc)
termination_by structural fuel => fuel

/-- The instruction loop over a function body / `if` branch. -/
def gen_irs (locals : List (String × Int)) : Nat → List IR → Nat →
    Except String (String × Nat)
  | 0, _, _ => Except.error "out of fuel"
  | fuel + 1, body, lc =>
    match body with
    | [] => Except.ok ("", lc)
    | ins :: rest => do
      let (s1, lc) ← gen_ir locals fuel ins lc
      let (s2, lc) ← gen_irs locals fuel rest lc
      Except.ok (s1 ++ s2, lc)
termination_by structural fuel => fuel

end

/-- `Codegen::gen_function`. -/
def gen_function (fuel : Nat) (f : IRFunction) (lc : Nat) :
    Except String (String × Nat) := do
  let (locals, offset) := collect_locals fuel f.body [] (-8)
  let frame :=
    if offset ≠ -8 then "    sub rsp, " ++ toString (-offset - 8) ++ "\n" else ""
  let (bodyCode, lc) ← gen_irs locals fuel f.body lc
  Except.ok
    (f.name ++ ":\n    push rbp\n    mov rbp, rsp\n" ++ frame ++ bodyCode ++
     "    mov rsp, rbp\n    pop rbp\n    ret\n\n",
     lc)

/-- The function loop of `gen_program`, threading the shared
`label_count` across functions. -/
def gen_functions (fuel : Nat) : List IRFunction → Nat →
    Except String (String × Nat)
  | [], lc => Except.ok ("", lc)
  | f :: rest, lc => do
    let (s1, lc) ← gen_function fuel f lc
    let (s2, lc) ← gen_functions fuel rest lc
    Except.ok (s1 ++ s2, lc)

/-- `Codegen::gen_program`: fatal if there is no function named `main`;
the `_start` block calls `main`, then performs the `exit` system call
with `rdi` zeroed (`xor rdi, rdi`). -/
def gen_program (fuel : Nat) (program : IRProgram) : Except String String :=
  if !program.funcs.any (fun f => f.name = "main") then
    Except.error "No main() function found"
  else do
    let (funcsCode, _) ← gen_functions fuel program.funcs 0
    Except.ok
      ("global _start\nsection .text\n\n" ++
       "_start:\n    call main\n    mov rax, 60\n    xor rdi, rdi\n    syscall\n\n" ++
       funcsCode ++
       "section .data\n__print_newline: db 10\n" ++
       "\nsection .rodata\n")

/-! ## Whole pipeline (`main.rs` order: lex, parse, analyze, generate) -/

/-- The compilation pipeline applied to source text.  The fuel bounds
only the recursion depths of the fueled stages; `1000` is ample for
every program considered here. -/
def compile (src : String) : Except String String :=
  match lex src with
  | none => Except.error "numeric literal overflow"
  | some tokens => do
    let (program, _) ← parse_program 1000 tokens 0
    let ir ← analyze 1000 program
    gen_program 1000 ir

/-! ## A small x86-64 machine for the instructions the generator emits

Used to settle the behavioural claims: the rendered instruction list is
proved equal to the generated text, and the machine is run on it. -/

/-- The registers the relevant generated code touches. -/
inductive Reg where
  | rax | rdi | rbp | rsp
deriving DecidableEq, Repr

/-- The instructions appearing in the generated entry block and in the
code of a `return`-only `main`. -/
inductive Instr where
  | callI (l : String)
  | retI
  | pushR (r : Reg)
  | popR (r : Reg)
  | movRR (dst src : Reg)
  | movRI (dst : Reg) (v : Int)
  | xorRR (dst src : Reg)
  | syscallI
deriving DecidableEq, Repr

/-- One line of assembly: an optional label on the line before the
instruction, and whether a blank separator line follows. -/
structure AsmLine where
  label : Option String
  instr : Instr
  gap : Bool
deriving DecidableEq, Repr

/-- NASM register names. -/
def regName : Reg → String
  | Reg.rax => "rax"
  | Reg.rdi => "rdi"
  | Reg.rbp => "rbp"
  | Reg.rsp => "rsp"

/-- NASM text of one instruction, in exactly the generator's format. -/
def renderInstr : Instr → String
  | Instr.callI l => "    call " ++ l ++ "\n"
  | Instr.retI => "    ret\n"
  | Instr.pushR r => "    push " ++ regName r ++ "\n"
  | Instr.popR r => "    pop " ++ regName r ++ "\n"
  | Instr.movRR d s => "    mov " ++ regName d ++ ", " ++ regName s ++ "\n"
  | Instr.movRI d v => "    mov " ++ regName d ++ ", " ++ toString v ++ "\n"
  | Instr.xorRR d s => "    xor " ++ regName d ++ ", " ++ regName s ++ "\n"
  | Instr.syscallI => "    syscall\n"

/-- NASM text of one line. -/
def renderLine (al : AsmLine) : String :=
  (match al.label with
   | some l => l ++ ":\n"
   | none => "") ++ renderInstr al.instr ++ (if al.gap then "\n" else "")

/-- NASM text of an instruction sequence. -/
def renderAsm (prog : List AsmLine) : String :=
  match prog with
  | [] => ""
  | al :: rest => renderLine al ++ renderAsm rest

/-- Machine state: registers, memory (for the stack), program counter. -/
structure MState where
  regs : Reg → Int
  mem : Int → Int
  pc : Nat

/-- Register file update. -/
def setReg (f : Reg → Int) (r : Reg) (v : Int) : Reg → Int :=
  fun x => if x = r then v else f x

/-- Memory update. -/
def setMem (m : Int → Int) (a v : Int) : Int → Int :=
  fun x => if x = a then v else m x

/-- Index of a label in the program. -/
def findLabel (prog : List AsmLine) (l : String) : Option Nat :=
  prog.findIdx? (fun al => al.label = some l)

/-- One machine step: `Sum.inl status` is a completed
`exit` system call (`rax = 60`; the kernel keeps the low byte of
`rdi`), `Sum.inr` is the next state, `none` is a stuck machine. -/
def step (prog : List AsmLine) (s : MState) : Option (Sum Int MState) :=
  match prog.get? s.pc with
  | none => none
  | some al =>
    match al.instr with
    | Instr.callI l =>
      match findLabel prog l with
      | none => none
      | some t =>
        let rsp := s.regs Reg.rsp - 8
        some (Sum.inr
          { regs := setReg s.regs Reg.rsp rsp,
            mem := setMem s.mem rsp (Int.ofNat (s.pc + 1)),
            pc := t })
    | Instr.retI =>
      let target := s.mem (s.regs Reg.rsp)
      some (Sum.inr
        { regs := setReg s.regs Reg.rsp (s.regs Reg.rsp + 8),
          mem := s.mem,
          pc := target.toNat })
    | Instr.pushR r =>
      let rsp := s.regs Reg.rsp - 8
      some (Sum.inr
        { regs := setReg s.regs Reg.rsp rsp,
          mem := setMem s.mem rsp (s.regs r),
          pc := s.pc + 1 })
    | Instr.popR r =>
      let v := s.mem (s.regs Reg.rsp)
      some (Sum.inr
        { regs := setReg (setReg s.regs Reg.rsp (s.regs Reg.rsp + 8)) r v,
          mem := s.mem,
          pc := s.pc + 1 })
    | Instr.movRR d src =>
      some (Sum.inr { regs := setReg s.regs d (s.regs src), mem := s.mem, pc := s.pc + 1 })
    | Instr.movRI d v =>
      some (Sum.inr { regs := setReg s.regs d v, mem := s.mem, pc := s.pc + 1 })
    | Instr.xorRR d src =>
      let v := if d = src then 0 else Int.xor (s.regs d) (s.regs src)
      some (Sum.inr { regs := setReg s.regs d v, mem := s.mem, pc := s.pc + 1 })
    | Instr.syscallI =>
      if s.regs Reg.rax = 60 then some (Sum.inl (Int.emod (s.regs Reg.rdi) 256))
      else none

/-- Run the machine for at most `fuel` steps; `some status` means the
process exited with that status. -/
def runAsm (prog : List AsmLine) (s : MState) (fuel : Nat) : Option Int :=
  match fuel with
  | 0 => none
  | fuel + 1 =>
    match step prog s with
    | none => none
    | some (Sum.inl status) => some status
    | some (Sum.inr s1) => runAsm prog s1 fuel

/-- Initial state: execution starts at line 0 (`_start`), the stack
pointer somewhere sane, everything else zero. -/
def initState : MState :=
  { regs := fun r => if r = Reg.rsp then 4096 else 0,
    mem := fun _ => 0,
    pc := 0 }

/-- The instruction sequence the generator emits for
`func main(): int { return 42; }` (entry block, then `main` with the
`Return` lowering followed by the unconditional epilogue). -/
def asm42 : List AsmLine :=
  [AsmLine.mk (some "_start") (Instr.callI "main") false,
   AsmLine.mk none (Instr.movRI Reg.rax 60) false,
   AsmLine.mk none (Instr.xorRR Reg.rdi Reg.rdi) false,
   AsmLine.mk none Instr.syscallI true,
   AsmLine.mk (some "main") (Instr.pushR Reg.rbp) false,
   AsmLine.mk none (Instr.movRR Reg.rbp Reg.rsp) false,
   AsmLine.mk none (Instr.movRI Reg.rax 42) false,
   AsmLine.mk none (Instr.movRR Reg.rsp Reg.rbp) false,
   AsmLine.mk none (Instr.popR Reg.rbp) false,
   AsmLine.mk none Instr.retI false,
   AsmLine.mk none (Instr.movRR Reg.rsp Reg.rbp) false,
   AsmLine.mk none (Instr.popR Reg.rbp) false,
   AsmLine.mk none Instr.retI true]

/-! ## Helpers for stating the claims -/

/-- Number of occurrences of `pat` in `text` (as character lists). -/
def countOcc (pat text : List Char) : Nat :=
  ((List.range (text.length + 1)).filter
    (fun i => pat.isPrefixOf (text.drop i))).length

/-- Wrap an integer into the signed 64-bit range (what the 64-bit
registers hold). -/
def wrap64 (n : Int) : Int := (n + 2 ^ 63) % 2 ^ 64 - 2 ^ 63

/-- Unsigned 64-bit reinterpretation. -/
def toU64 (n : Int) : Int := n % 2 ^ 64

/-- Value computed at run time by the instruction sequences `gen_expr`
emits for a constant `IRExpr` (left operand in `rcx`, right in `rax`:
`add`/`sub`/`imul` wrap, `div` is unsigned and faults on zero, the
comparison operators materialize 0/1 via `setcc`). -/
def irexpr_value : IRExpr → Option Int
  | IRExpr.int n => some n
  | IRExpr.binary l op r => do
    let a ← irexpr_value l
    let b ← irexpr_value r
    if op = "+" then some (wrap64 (a + b))
    else if op = "-" then some (wrap64 (a - b))
    else if op = "*" then some (wrap64 (a * b))
    else if op = "/" then
      if toU64 b = 0 then none else some (wrap64 (toU64 a / toU64 b))
    else if op = ">" then some (if b < a then 1 else 0)
    else if op = "<" then some (if a < b then 1 else 0)
    else if op = "==" then some (if a = b then 1 else 0)
    else if op = "!=" then some (if a = b then 0 else 1)
    else none
  | _ => none

/-- All names stored by `StoreVar` instructions in a body, in the
pre-scan traversal order of `collect_locals` (then-branch before
else-branch, branches before the rest of the enclosing body). -/
def storedNames : List IR → List String
  | [] => []
  | IR.storeVar n _ :: rest => n :: storedNames rest
  | IR.ifIR _ thenBody elseBody :: rest =>
    storedNames thenBody ++ storedNames elseBody ++ storedNames rest
  | _ :: rest => storedNames rest

/-- First-occurrence deduplication of a name list, relative to names
already `seen`. -/
def dedupNew (seen : List String) : List String → List String
  | [] => []
  | n :: ns =>
    if n ∈ seen then dedupNew seen ns else n :: dedupNew (n :: seen) ns

/-- The offsets `collect_locals` hands out: `o, o − 8, o − 16, ...`. -/
def offsets (o : Int) : Nat → List Int
  | 0 => []
  | k + 1 => o :: offsets (o - 8) k

/-- One step of slot allocation, processing a single stored name
(skip if seen, else append with the current offset and step by −8). -/
def allocStep (st : List (String × Int) × Int) (n : String) :
    List (String × Int) × Int :=
  if (locals_get st.1 n).isSome then st else (st.1 ++ [(n, st.2)], st.2 - 8)

/-- Slot allocation, one name at a time. -/
def allocFold (names : List String) (st : List (String × Int) × Int) :
    List (String × Int) × Int :=
  names.foldl allocStep st

/-- The eight binary-operator tokens of the flat `parse_binary` loop. -/
def opTokens : List Token :=
  [Token.plus, Token.minus, Token.star, Token.slash,
   Token.greater, Token.less, Token.equalEqual, Token.notEqual]

/-- The operator string of an operator token. -/
def op_string (t : Token) : String := (binop_of_token t).getD ""

/-- Whether an IR instruction is a `CallFunc` node. -/
def is_call_func : IR → Bool
  | IR.callFunc _ _ => true
  | _ => false

/-- The spec's case-sensitive keyword/type table, exactly as written in
§4.1 of the specification (`func`, `let`, `return`, `if`, `else`,
`int`, `string`). -/
def keyword_token : String → Option Token
  | "func" => some Token.func
  | "let" => some Token.letTok
  | "return" => some Token.returnTok
  | "if" => some Token.ifTok
  | "else" => some Token.elseTok
  | "int" => some Token.intType
  | "string" => some Token.stringType
  | _ => none

/-- Front half of the pipeline: lex, parse and analyze (no codegen). -/
def analyze_src (src : String) : Except String IRProgram :=
  match lex src with
  | none => Except.error "numeric literal overflow"
  | some tokens => do
    let (program, _) ← parse_program 1000 tokens 0
    analyze 1000 program

/-- Test program for C1: `main` only returns 42. -/
def src42 : String := "func main(): int { return 42; }"

/-- Test program for C2: `main` only calls `println(\x22hi\x22)`. -/
def src_hi : String := "func main(): int \x7b println(\"hi\"); \x7d"

/-- Test program for C4: the same string literal printed twice. -/
def src_xx : String := "func main(): int \x7b println(\"x\"); println(\"x\"); \x7d"

/-- Test program for C3: a bare unknown variable in statement position. -/
def src_y : String := "func main(): int { y; return 0; }"

/-- Test program for C5: the no-precedence arithmetic check. -/
def src_flat : String := "func main(): int { let x: int = 1 + 2 * 3; return x; }"

/-- The assembly text the compiler emits for `src_hi`. -/
def out_hi : String :=
  "global _start\nsection .text\n\n_start:\n    call main\n    mov rax, 60\n    xor rdi, rdi\n    syscall\n\nmain:\n    push rbp\n    mov rbp, rsp\n    sub rsp, 8\nsection .rodata\nstr_1: db \"hi\", 0\nsection .text\n    lea rax, [str_1]\n    push rax\n    pop rdi\n    call println\n    mov [rbp-8], rax\n    mov rsp, rbp\n    pop rbp\n    ret\n\nsection .data\n__print_newline: db 10\n\nsection .rodata\n"

/-- The assembly text the compiler emits for `src_xx`. -/
def out_xx : String :=
  "global _start\nsection .text\n\n_start:\n    call main\n    mov rax, 60\n    xor rdi, rdi\n    syscall\n\nmain:\n    push rbp\n    mov rbp, rsp\n    sub rsp, 8\nsection .rodata\nstr_1: db \"x\", 0\nsection .text\n    lea rax, [str_1]\n    push rax\n    pop rdi\n    call println\n    mov [rbp-8], rax\nsection .rodata\nstr_2: db \"x\", 0\nsection .text\n    lea rax, [str_2]\n    push rax\n    pop rdi\n    call println\n    mov [rbp-8], rax\n    mov rsp, rbp\n    pop rbp\n    ret\n\nsection .data\n__print_newline: db 10\n\nsection .rodata\n"

/-! ## Theorems -/

/-- Bind of a successful `Except` computation reduces. -/
theorem except_bind_ok {ε α β : Type} (a : α) (f : α → Except ε β) :
    ((Except.ok a : Except ε α) >>= f) = f a := rfl

/-- Bind of a failed `Except` computation propagates the error. -/
theorem except_bind_err {ε α β : Type} (e : ε) (f : α → Except ε β) :
    ((Except.error e : Except ε α) >>= f) = Except.error e := rfl

/-- `C1`: the claim says the emitted `_start` block passes `main`'s
return value (left in `rax`) to the exit system call, so that
`func main(): int { return 42; }` exits with status 42.  In fact the
emitted block is `call main; mov rax, 60; xor rdi, rdi; syscall`: it
zeroes `rdi` and clobbers `rax` with the syscall number, so the
generated program exits with status 0, not 42.  The generated text is
exactly the rendering of the instruction list `asm42`, and running that
list on the machine model exits with status 0. -/
theorem c1_return_42_compiles_to_exit_zero :
    compile src42 =
      Except.ok ("global _start\nsection .text\n\n" ++ renderAsm asm42 ++
        "section .data\n__print_newline: db 10\n\nsection .rodata\n") ∧
    runAsm asm42 initState 64 = some 0 ∧ (0 : Int) ≠ 42 :=
  ⟨by rfl, by rfl, by decide⟩

/-- `C2`: the claim says a `main` whose body is `println("hi");` makes
the code generator lower the builtin call to a raw write system call
over the string plus one newline, with the write length matching the
string length, producing exactly `hi\n`.  In fact only calls literally
named `print` reach `gen_print`: `println` takes the generic call path,
which emits `call println` — a label defined nowhere in the output (the
single `syscall` in the text is the `_start` exit, not a write) — and
even `gen_print`'s string path hard-codes the write length 64 instead
of the string's length. -/
theorem c2_println_hi_not_raw_write :
    compile src_hi = Except.ok out_hi ∧
    countOcc "call println".data out_hi.data = 1 ∧
    countOcc "println:".data out_hi.data = 0 ∧
    countOcc "syscall".data out_hi.data = 1 ∧
    (gen_print [] 10 [IRExpr.str "hi"] 0).toOption =
      some ("section .rodata\nprint_string_1: db \"hi\", 10, 0\nsection .text\n    lea rsi, [print_string_1]\n    mov rdi, 1\n    mov rdx, 64\n    mov rax, 1\n    syscall\n", 1) ∧
    "hi".length + 1 ≠ 64 :=
  ⟨by rfl, by rfl, by rfl, by rfl, by rfl, by decide⟩

/-- `C3`: the claim says the semantic analyzer fails fatally on an
unknown variable in every expression position, including
statement-position expression statements, so no unresolvable `Var`
reaches the code generator.  In fact `analyze_stmt`'s `ExprStmt` arm
calls only `analyze_expr`, which lowers `Var` without consulting the
scope, and never `expr_type`: the program `func main(): int { y; return 0; }`
passes semantic analysis with the unresolvable `Var "y"` in its IR, and
it is the code generator that fails, with its internal-consistency
`Unknown local variable` panic. -/
theorem c3_unknown_var_stmt_passes_semantic :
    analyze_src src_y =
      Except.ok (IRProgram.mk [IRFunction.mk "main" [] TypeName.int
        [IR.storeVar "_expr_tmp" (IRExpr.var "y"),
         IR.returnIR (IRExpr.int 0)]]) ∧
    compile src_y = Except.error "Unknown local variable y" :=
  ⟨by rfl, by rfl⟩

/-- `C4` counterexample: the claim says each distinct string literal is
emitted as exactly one labeled read-only data entry no matter how often
it occurs, and that `println("x"); println("x");` produces exactly one
`str_0` label referenced twice.  In fact the generated text for that
program contains two separate `db "x"` entries under two fresh labels
`str_1` and `str_2` (and no `str_0` at all). -/
theorem c4_duplicate_literal_two_entries :
    compile src_xx = Except.ok out_xx ∧
    countOcc "db \"x\"".data out_xx.data = 2 ∧
    ¬ countOcc "db \"x\"".data out_xx.data = 1 ∧
    countOcc "str_0".data out_xx.data = 0 ∧
    countOcc "str_1:".data out_xx.data = 1 ∧
    countOcc "str_2:".data out_xx.data = 1 ∧
    (2 : Nat) ≠ 1 :=
  ⟨by rfl, by rfl, by decide, by rfl, by rfl, by rfl, by decide⟩

/-- `C4` amended: string literals are not deduplicated: every
occurrence calls `gen_string_literal`, which unconditionally bumps the
shared label counter and emits its own fresh `str_N` read-only data
entry; in particular `println("x"); println("x");` produces two `db "x"`
entries labeled `str_1` and `str_2`, each referenced once. -/
theorem c4_amended_fresh_label_per_occurrence :
    (∀ (s : String) (lc : Nat), (gen_string_literal s lc).2 = lc + 1) ∧
    (∀ (lc : Nat), new_label "str" lc = ("str_" ++ toString (lc + 1), lc + 1)) ∧
    compile src_xx = Except.ok out_xx ∧
    countOcc "db \"x\"".data out_xx.data = 2 ∧
    countOcc "str_1:".data out_xx.data = 1 ∧
    countOcc "str_2:".data out_xx.data = 1 ∧
    countOcc "lea rax, [str_1]".data out_xx.data = 1 ∧
    countOcc "lea rax, [str_2]".data out_xx.data = 1 :=
  ⟨fun s lc => rfl, fun lc => by simp [new_label], by rfl, by rfl, by rfl,
   by rfl, by rfl, by rfl⟩

/-- `C5`: expression parsing is one flat left-associative loop with no
operator precedence: for every pair of the eight binary-operator tokens
(exactly the tokens `binop_of_token` accepts, which are `opTokens`) and
any literals `x OP1 y OP2 z`, the parser yields the left-nested tree
`(x OP1 y) OP2 z`; concretely `1 + 2 * 3` parses as `(1+2)*3` and the
value stored by `let x: int = 1 + 2 * 3;` — computed by the arithmetic
instruction sequences `gen_expr` emits — is 9, not 7. -/
theorem c5_flat_left_assoc_no_precedence :
    (∀ (x y z : Int) (t1 t2 : Token) (s1 s2 : String),
      binop_of_token t1 = some s1 → binop_of_token t2 = some s2 →
      parse_binary 9 [Token.number x, t1, Token.number y, t2, Token.number z,
          Token.eof] 0 =
        Except.ok (Expr.binary (Expr.binary (Expr.number x) s1 (Expr.number y))
          s2 (Expr.number z), 5)) ∧
    (∀ t : Token, (binop_of_token t).isSome ↔ t ∈ opTokens) ∧
    lex "1 + 2 * 3" = some [Token.number 1, Token.plus, Token.number 2,
      Token.star, Token.number 3, Token.eof] ∧
    analyze_src src_flat =
      Except.ok (IRProgram.mk [IRFunction.mk "main" [] TypeName.int
        [IR.storeVar "x" (IRExpr.binary
           (IRExpr.binary (IRExpr.int 1) "+" (IRExpr.int 2)) "*" (IRExpr.int 3)),
         IR.returnIR (IRExpr.var "x")]]) ∧
    irexpr_value (IRExpr.binary (IRExpr.binary (IRExpr.int 1) "+" (IRExpr.int 2))
      "*" (IRExpr.int 3)) = some 9 ∧
    (9 : Int) ≠ 7 := by
  refine ⟨?_, ?_, by decide, by rfl, by decide, by decide⟩
  · intro x y z t1 t2 s1 s2 h1 h2
    cases t1 <;> cases t2 <;> simp only [binop_of_token] at h1 h2 <;>
      first
        | exact Option.noConfusion h1
        | exact Option.noConfusion h2
        | (injection h1 with e1
           injection h2 with e2
           subst e1
           subst e2
           rfl)
  · intro t
    cases t <;> simp [binop_of_token, opTokens]

/-- Witness for `c5_flat_left_assoc_no_precedence`: instantiating the
no-precedence parse shape at `1 + 2 * 3` yields the left-nested tree
`(1+2)*3`. -/
theorem c5_flat_left_assoc_no_precedence_witness :
    parse_binary 9 [Token.number 1, Token.plus, Token.number 2, Token.star,
        Token.number 3, Token.eof] 0 =
      Except.ok (Expr.binary (Expr.binary (Expr.number 1) "+" (Expr.number 2))
        "*" (Expr.number 3), 5) :=
  c5_flat_left_assoc_no_precedence.1 1 2 3 Token.plus Token.star "+" "*"
    (by rfl) (by rfl)

/-- `C6` counterexample: the claim says statement-position builtin calls
are lowered to a `Println` or `CallFunc` IR node.  The IR type has no
`Println` constructor at all, and the analyzer lowers the statement
`println("hi");` to `StoreVar "_expr_tmp" (IRExpr.Call ...)` — not a
`CallFunc` node. -/
theorem c6_println_lowered_to_store_tmp_not_callfunc :
    analyze_stmt (SemanticAnalyzer.mk []) 10
        (Stmt.exprStmt (Expr.call "println" [Expr.stringLiteral "hi"]))
        ([] : Scope) TypeName.int =
      Except.ok ([IR.storeVar "_expr_tmp"
        (IRExpr.call "println" [IRExpr.str "hi"])], ([] : Scope)) ∧
    is_call_func (IR.storeVar "_expr_tmp"
      (IRExpr.call "println" [IRExpr.str "hi"])) = false :=
  ⟨by rfl, by rfl⟩

/-- `C6` amended: every statement-position call to a builtin name
(`println`/`print`) bypasses the user-function lookup entirely — the
lowering succeeds for any analyzer, any function table, and any
argument list whose elements lower, with no arity or type check — and
produces `IR.StoreVar "_expr_tmp" (IRExpr.Call name args)` (the
analyzer never emits `IR.CallFunc`, and the IR has no `Println`
constructor). -/
theorem c6_amended_builtin_stmt_lowering :
    ∀ (a : SemanticAnalyzer) (fuel : Nat) (name : String) (args : List Expr)
      (scope : Scope) (ret : TypeName) (irArgs : List IRExpr),
      is_builtin name = true →
      analyze_exprs a fuel args scope = Except.ok irArgs →
      analyze_stmt a (fuel + 2) (Stmt.exprStmt (Expr.call name args)) scope ret =
        Except.ok ([IR.storeVar "_expr_tmp" (IRExpr.call name irArgs)], scope) := by
  intro a fuel name args scope ret irArgs hb hargs
  simp [analyze_stmt, analyze_expr, hb, hargs]
  rfl

/-- Witness for `c6_amended_builtin_stmt_lowering`: a two-argument
`print` statement lowers to a `StoreVar` of a call, with no arity
check, under the empty function table. -/
theorem c6_amended_builtin_stmt_lowering_witness :
    analyze_stmt (SemanticAnalyzer.mk []) 7
        (Stmt.exprStmt (Expr.call "print" [Expr.number 1, Expr.number 2]))
        ([] : Scope) TypeName.int =
      Except.ok ([IR.storeVar "_expr_tmp"
        (IRExpr.call "print" [IRExpr.int 1, IRExpr.int 2])], ([] : Scope)) :=
  c6_amended_builtin_stmt_lowering (SemanticAnalyzer.mk []) 5 "print"
    [Expr.number 1, Expr.number 2] ([] : Scope) TypeName.int
    [IRExpr.int 1, IRExpr.int 2] (by decide) (by rfl)

/-- `C7` counterexample: the claim says the keyword lookup is
case-sensitive, so `Func`, `LET`, `Int` lex as identifier tokens.  In
fact `lookup_keyword` lowercases the word first, so they lex as the
keyword/type tokens. -/
theorem c7_keyword_lookup_not_case_sensitive :
    lex "Func" = some [Token.func, Token.eof] ∧
    lex "Func" ≠ some [Token.ident "Func", Token.eof] ∧
    lex "LET" = some [Token.letTok, Token.eof] ∧
    lex "Int" = some [Token.intType, Token.eof] ∧
    Token.func ≠ Token.ident "Func" ∧
    Token.letTok ≠ Token.ident "LET" ∧
    Token.intType ≠ Token.ident "Int" := by decide

/-- `C7` amended: the lexer checks identifier words case-insensitively:
the word is ASCII-lowercased and only then compared against the fixed
keyword/type table; words whose lowercasing misses the table become
name tokens carrying the original spelling. -/
theorem c7_amended_case_insensitive_lookup :
    (∀ w : String, keyword_token (lowerAscii w) = none →
      lookup_keyword w = Token.ident w) ∧
    (∀ (w : String) (k : Token), keyword_token (lowerAscii w) = some k →
      lookup_keyword w = k) ∧
    lookup_keyword "Func" = Token.func ∧
    lookup_keyword "FUNC" = Token.func ∧
    lookup_keyword "funcx" = Token.ident "funcx" := by
  refine ⟨?_, ?_, by decide, by decide, by decide⟩
  · intro w h
    unfold lookup_keyword
    unfold keyword_token at h
    split <;> simp_all
  · intro w k h
    unfold lookup_keyword
    unfold keyword_token at h
    split <;> simp_all

/-- Witness for `c7_amended_case_insensitive_lookup`: applying it at
the word `Func` (whose lowercasing hits the table) yields the keyword
token. -/
theorem c7_amended_case_insensitive_lookup_witness :
    lookup_keyword "Func" = Token.func :=
  c7_amended_case_insensitive_lookup.2.1 "Func" Token.func (by decide)

/-- `C10`: a builtin call in expression position is accepted with any
number of arguments of any types: `expr_type` assigns it type `Int`
without even looking at the arguments (so it never fails on them), and
`analyze_expr` lowers it without any arity or argument-type check, for
any analyzer and any scope — here including a call whose arguments are
an unbound variable, an integer and a string, under the empty function
table. -/
theorem c10_builtin_expr_call_unchecked_int :
    (∀ (a : SemanticAnalyzer) (name : String) (args : List Expr) (scope : Scope),
      is_builtin name = true →
      expr_type a (Expr.call name args) scope = Except.ok TypeName.int) ∧
    (∀ (a : SemanticAnalyzer) (fuel : Nat) (name : String) (args : List Expr)
       (scope : Scope) (irArgs : List IRExpr),
      is_builtin name = true →
      analyze_exprs a fuel args scope = Except.ok irArgs →
      analyze_expr a (fuel + 1) (Expr.call name args) scope =
        Except.ok (IRExpr.call name irArgs)) ∧
    analyze_expr (SemanticAnalyzer.mk []) 5
        (Expr.call "println" [Expr.var "nope", Expr.number 1, Expr.stringLiteral "s"])
        ([] : Scope) =
      Except.ok (IRExpr.call "println"
        [IRExpr.var "nope", IRExpr.int 1, IRExpr.str "s"]) := by
  refine ⟨?_, ?_, by rfl⟩
  · intro a name args scope hb
    simp [expr_type, hb]
  · intro a fuel name args scope irArgs hb hargs
    simp [analyze_expr, hb, hargs]
    rfl

/-- Witness for `c10_builtin_expr_call_unchecked_int`: a zero-argument
`print` call in expression position types as `Int` under the empty
function table and empty scope. -/
theorem c10_builtin_expr_call_unchecked_int_witness :
    expr_type (SemanticAnalyzer.mk []) (Expr.call "print" []) ([] : Scope) =
      Except.ok TypeName.int :=
  c10_builtin_expr_call_unchecked_int.1 (SemanticAnalyzer.mk []) "print" []
    ([] : Scope) (by decide)

/-- `locals_get` finds a name exactly when it is among the stored keys. -/
theorem locals_get_isSome (l : List (String × Int)) (n : String) :
    (locals_get l n).isSome = true ↔ n ∈ l.map Prod.fst := by
  induction l with
  | nil => simp [locals_get]
  | cons p rest ih =>
    obtain ⟨k, v⟩ := p
    by_cases hk : k = n
    · simp [locals_get, hk]
    · simp only [locals_get, if_neg hk, List.map_cons, List.mem_cons, ih]
      constructor
      · exact fun h => Or.inr h
      · rintro (rfl | h)
        · exact absurd rfl hk
        · exact h

/-- `dedupNew` only depends on the membership of the seen list. -/
theorem dedupNew_congr (ns : List String) :
    ∀ (s1 s2 : List String), (∀ x, x ∈ s1 ↔ x ∈ s2) →
      dedupNew s1 ns = dedupNew s2 ns := by
  induction ns with
  | nil => intro s1 s2 h; simp [dedupNew]
  | cons n ns ih =>
    intro s1 s2 h
    by_cases hm : n ∈ s1
    · simp [dedupNew, hm, (h n).mp hm, ih s1 s2 h]
    · have hm2 : n ∉ s2 := fun hx => hm ((h n).mpr hx)
      simp only [dedupNew, if_neg hm, if_neg hm2, List.cons.injEq, true_and]
      exact ih (n :: s1) (n :: s2) (by intro x; simp [h x])

/-- Membership in a first-occurrence deduplication. -/
theorem dedupNew_mem (ns : List String) :
    ∀ (seen : List String) (x : String),
      x ∈ dedupNew seen ns ↔ (x ∈ ns ∧ x ∉ seen) := by
  induction ns with
  | nil => intro seen x; simp [dedupNew]
  | cons n ns ih =>
    intro seen x
    by_cases hm : n ∈ seen
    · simp only [dedupNew, if_pos hm, ih, List.mem_cons]
      constructor
      · rintro ⟨h1, h2⟩
        exact ⟨Or.inr h1, h2⟩
      · rintro ⟨rfl | h1, h2⟩
        · exact absurd hm h2
        · exact ⟨h1, h2⟩
    · simp only [dedupNew, if_neg hm, List.mem_cons, ih]
      constructor
      · rintro (rfl | ⟨h1, h2⟩)
        · exact ⟨Or.inl rfl, hm⟩
        · exact ⟨Or.inr h1, fun hs => h2 (Or.inr hs)⟩
      · rintro ⟨rfl | h1, h2⟩
        · exact Or.inl rfl
        · by_cases hxn : x = n
          · exact Or.inl hxn
          · exact Or.inr ⟨h1, fun hc => hc.elim hxn h2⟩

/-- A first-occurrence deduplication has no duplicates. -/
theorem dedupNew_nodup (ns : List String) :
    ∀ (seen : List String), (dedupNew seen ns).Nodup := by
  induction ns with
  | nil => intro seen; simp [dedupNew]
  | cons n ns ih =>
    intro seen
    by_cases hm : n ∈ seen
    · simp [dedupNew, hm, ih]
    · simp only [dedupNew, if_neg hm, List.nodup_cons]
      refine ⟨fun hx => ?_, ih (n :: seen)⟩
      exact ((dedupNew_mem ns (n :: seen) n).mp hx).2 (List.mem_cons_self n seen)

/-- Any nonempty body needs at least one unit of pre-scan fuel. -/
theorem cl_fuel_pos (ins : IR) (rest : List IR) : 1 ≤ cl_fuel (ins :: rest) := by
  cases ins <;> simp [cl_fuel]

/-- With sufficient fuel, the pre-scan `collect_locals` is the fold of
the slot-allocation step over the stored names in traversal order. -/
theorem collect_locals_eq_allocFold :
    ∀ (fuel : Nat) (body : List IR) (l : List (String × Int)) (o : Int),
      cl_fuel body ≤ fuel →
      collect_locals fuel body l o = allocFold (storedNames body) (l, o) := by
  intro fuel
  induction fuel with
  | zero =>
    intro body l o h
    cases body with
    | nil => simp [collect_locals, storedNames, allocFold, List.foldl_nil]
    | cons ins rest => exact absurd (le_trans (cl_fuel_pos ins rest) h) (by omega)
  | succ k ih =>
    intro body l o h
    cases body with
    | nil => simp [collect_locals, storedNames, allocFold, List.foldl_nil]
    | cons ins rest =>
      cases ins with
      | storeVar name e =>
        have h' : cl_fuel rest ≤ k := by
          simp only [cl_fuel] at h
          omega
        simp only [collect_locals, storedNames, allocFold, List.foldl_cons]
        rw [ih rest _ _ h']
        rfl
      | ifIR c thenBody elseBody =>
        have h1 : cl_fuel thenBody ≤ k := by
          simp only [cl_fuel] at h
          omega
        have h2 : cl_fuel elseBody ≤ k := by
          simp only [cl_fuel] at h
          omega
        have h3 : cl_fuel rest ≤ k := by
          simp only [cl_fuel] at h
          omega
        simp only [collect_locals, storedNames, allocFold, List.foldl_append]
        rw [ih thenBody l o h1, ih elseBody _ _ h2, ih rest _ _ h3]
        rfl
      | loadVar name =>
        have h' : cl_fuel rest ≤ k := by
          simp only [cl_fuel] at h
          omega
        simp only [collect_locals, storedNames]
        exact ih rest l o h'
      | literalInt n =>
        have h' : cl_fuel rest ≤ k := by
          simp only [cl_fuel] at h
          omega
        simp only [collect_locals, storedNames]
        exact ih rest l o h'
      | literalString s =>
        have h' : cl_fuel rest ≤ k := by
          simp only [cl_fuel] at h
          omega
        simp only [collect_locals, storedNames]
        exact ih rest l o h'
      | binaryOp a op b =>
        have h' : cl_fuel rest ≤ k := by
          simp only [cl_fuel] at h
          omega
        simp only [collect_locals, storedNames]
        exact ih rest l o h'
      | callFunc name args =>
        have h' : cl_fuel rest ≤ k := by
          simp only [cl_fuel] at h
          omega
        simp only [collect_locals, storedNames]
        exact ih rest l o h'
      | returnIR e =>
        have h' : cl_fuel rest ≤ k := by
          simp only [cl_fuel] at h
          omega
        simp only [collect_locals, storedNames]
        exact ih rest l o h'

/-- The slot-allocation fold appends one entry per not-yet-seen name,
in first-occurrence order, with offsets descending by 8 from the
current offset. -/
theorem allocFold_spec :
    ∀ (names : List String) (l : List (String × Int)) (o : Int),
      allocFold names (l, o) =
        (l ++ (dedupNew (l.map Prod.fst) names).zip
           (offsets o (dedupNew (l.map Prod.fst) names).length),
         o - 8 * (dedupNew (l.map Prod.fst) names).length) := by
  intro names
  induction names with
  | nil => intro l o; simp [allocFold, dedupNew, offsets]
  | cons n ns ih =>
    intro l o
    by_cases hm : n ∈ l.map Prod.fst
    · have hs : (locals_get l n).isSome = true := (locals_get_isSome l n).mpr hm
      have hstep : allocStep (l, o) n = (l, o) := by simp [allocStep, hs]
      simp only [allocFold, List.foldl_cons] at *
      rw [hstep, ih l o]
      simp [dedupNew, hm]
    · have hs : (locals_get l n).isSome = false := by
        rw [Bool.eq_false_iff]
        intro hx
        exact hm ((locals_get_isSome l n).mp hx)
      have hstep : allocStep (l, o) n = (l ++ [(n, o)], o - 8) := by
        simp [allocStep, hs]
      simp only [allocFold, List.foldl_cons]
      rw [hstep]
      have := ih (l ++ [(n, o)]) (o - 8)
      simp only [allocFold] at this
      rw [this]
      have hseen : dedupNew ((l ++ [(n, o)]).map Prod.fst) ns =
          dedupNew (n :: l.map Prod.fst) ns := by
        apply dedupNew_congr
        intro x
        simp [or_comm]
      rw [hseen]
      simp only [dedupNew, if_neg hm]
      rw [List.length_cons, offsets]
      simp only [List.zip_cons_cons, List.append_assoc, List.singleton_append]
      rw [Prod.mk.injEq]
      exact ⟨rfl, by omega⟩

/-- `C8`: for every IR body and sufficient fuel, the stack-slot
pre-scan assigns exactly one slot per distinct stored name for the
whole function: the resulting table is the first-occurrence
deduplication of the stored names (the traversal visiting both branches
of every nested `if`) zipped with the 8-byte-spaced negative offsets
`-8, -16, ...`, the final offset is 8 bytes past the last slot, the
table has no duplicate names, and a name gets a slot iff some
`StoreVar` stores it; in particular two sibling `if` branches each
storing `x` share the single slot `-8` and the allocator returns
normally. -/
theorem c8_one_slot_per_distinct_name :
    (∀ (fuel : Nat) (body : List IR), cl_fuel body ≤ fuel →
      collect_locals fuel body [] (-8) =
        ((dedupNew [] (storedNames body)).zip
           (offsets (-8) (dedupNew [] (storedNames body)).length),
         (-8 : Int) - 8 * ((dedupNew [] (storedNames body)).length : Int)) ∧
      (dedupNew [] (storedNames body)).Nodup ∧
      (∀ n, n ∈ dedupNew [] (storedNames body) ↔ n ∈ storedNames body)) ∧
    (∀ (cond e1 e2 : IRExpr),
      collect_locals 10
          [IR.ifIR cond [IR.storeVar "x" e1] [IR.storeVar "x" e2]] [] (-8) =
        ([("x", -8)], -16)) := by
  constructor
  · intro fuel body h
    refine ⟨?_, dedupNew_nodup _ _, fun n => by simp [dedupNew_mem]⟩
    rw [collect_locals_eq_allocFold fuel body [] (-8) h, allocFold_spec]
    simp
  · intro cond e1 e2
    rfl

/-- Witness for `c8_one_slot_per_distinct_name`: a three-store body in
which `a` is stored twice gets exactly the two slots `a ↦ -8`,
`b ↦ -16`. -/
theorem c8_one_slot_per_distinct_name_witness :
    collect_locals 10
        [IR.storeVar "a" (IRExpr.int 1), IR.storeVar "a" (IRExpr.int 2),
         IR.storeVar "b" (IRExpr.int 3)] [] (-8) =
      ([("a", -8), ("b", -16)], -24) := by
  have h := (c8_one_slot_per_distinct_name.1 10
    [IR.storeVar "a" (IRExpr.int 1), IR.storeVar "a" (IRExpr.int 2),
     IR.storeVar "b" (IRExpr.int 3)] (by simp [cl_fuel])).1
  rw [h]
  simp [storedNames, dedupNew, offsets]


/-- Dropping a prefix never lengthens a list. -/
theorem dropWhile_length_le (p : Char → Bool) (l : List Char) :
    (l.dropWhile p).length ≤ l.length := by
  induction l with
  | nil => simp [List.dropWhile]
  | cons a as ih =>
    simp only [List.dropWhile]
    cases p a
    · simp
    · simp only [List.length_cons]
      omega

/-- One lexer step and one scan step, classified: either the step
recurses plainly on a suffix, or it conses one token, or it fails on an
overflowing numeric literal, or it conses a number token; in each case
the two steps recurse on the same suffix, no longer than the tail. -/
theorem lexStep_scanStep_rel (k : List Char → Option (List Token))
    (g : List Char → List Nat) (c : Char) (cs : List Char) :
    (∃ X, X.length ≤ cs.length ∧ lexStep k c cs = k X ∧ scanStep g c cs = g X) ∨
    (∃ t X, X.length ≤ cs.length ∧
      lexStep k c cs = (k X).map (fun ts => t :: ts) ∧ scanStep g c cs = g X) ∨
    (∃ v X, X.length ≤ cs.length ∧ i64Max < v ∧
      lexStep k c cs = none ∧ scanStep g c cs = v :: g X) ∨
    (∃ v X, X.length ≤ cs.length ∧ ¬ i64Max < v ∧
      lexStep k c cs = (k X).map (fun ts => Token.number (Int.ofNat v) :: ts) ∧
      scanStep g c cs = v :: g X) := by
  by_cases h1 : (c = ' ' || c = '\n' || c = '\t' || c = '\r') = true
  · exact Or.inl ⟨cs, le_refl _, by simp [lexStep, h1], by simp [scanStep, h1]⟩
  by_cases h2 : c = '('
  · subst h2
    exact Or.inr (Or.inl ⟨Token.lparen, cs, le_refl _, rfl, rfl⟩)
  by_cases h3 : c = ')'
  · subst h3
    exact Or.inr (Or.inl ⟨Token.rparen, cs, le_refl _, rfl, rfl⟩)
  by_cases h4 : c = '{'
  · subst h4
    exact Or.inr (Or.inl ⟨Token.lbrace, cs, le_refl _, rfl, rfl⟩)
  by_cases h5 : c = '}'
  · subst h5
    exact Or.inr (Or.inl ⟨Token.rbrace, cs, le_refl _, rfl, rfl⟩)
  by_cases h6 : c = ':'
  · subst h6
    exact Or.inr (Or.inl ⟨Token.colon, cs, le_refl _, rfl, rfl⟩)
  by_cases h7 : c = ';'
  · subst h7
    exact Or.inr (Or.inl ⟨Token.semicolon, cs, le_refl _, rfl, rfl⟩)
  by_cases h8 : c = ','
  · subst h8
    exact Or.inr (Or.inl ⟨Token.comma, cs, le_refl _, rfl, rfl⟩)
  by_cases h9 : c = '+'
  · subst h9
    exact Or.inr (Or.inl ⟨Token.plus, cs, le_refl _, rfl, rfl⟩)
  by_cases h10 : c = '-'
  · subst h10
    exact Or.inr (Or.inl ⟨Token.minus, cs, le_refl _, rfl, rfl⟩)
  by_cases h11 : c = '*'
  · subst h11
    exact Or.inr (Or.inl ⟨Token.star, cs, le_refl _, rfl, rfl⟩)
  by_cases h12 : c = '/'
  · subst h12
    exact Or.inr (Or.inl ⟨Token.slash, cs, le_refl _, rfl, rfl⟩)
  by_cases h13 : c = '='
  · subst h13
    by_cases hE : cs.head? = some '='
    · refine Or.inr (Or.inl ⟨Token.equalEqual, cs.drop 1, ?_, ?_, ?_⟩)
      · simp [List.length_drop]
      · simp [lexStep, hE]
      · simp [scanStep, hE]
    · exact Or.inr (Or.inl ⟨Token.assign, cs, le_refl _,
        by simp [lexStep, hE], by simp [scanStep, hE]⟩)
  by_cases h14 : c = '!'
  · subst h14
    by_cases hE : cs.head? = some '='
    · refine Or.inr (Or.inl ⟨Token.notEqual, cs.drop 1, ?_, ?_, ?_⟩)
      · simp [List.length_drop]
      · simp [lexStep, hE]
      · simp [scanStep, hE]
    · exact Or.inl ⟨cs, le_refl _, by simp [lexStep, hE], by simp [scanStep, hE]⟩
  by_cases h15 : c = '>'
  · subst h15
    exact Or.inr (Or.inl ⟨Token.greater, cs, le_refl _, rfl, rfl⟩)
  by_cases h16 : c = '<'
  · subst h16
    exact Or.inr (Or.inl ⟨Token.less, cs, le_refl _, rfl, rfl⟩)
  by_cases h17 : c = '"'
  · subst h17
    refine Or.inr (Or.inl ⟨Token.stringLiteral
      (String.mk (cs.takeWhile (fun ch => ch ≠ '"'))),
      (cs.dropWhile (fun ch => ch ≠ '"')).drop 1, ?_, rfl, rfl⟩)
    have := dropWhile_length_le (fun ch => decide (ch ≠ '"')) cs
    simp only [List.length_drop]
    omega
  by_cases h18 : c.isDigit = true
  · by_cases hOv : i64Max < digitsToNat (c :: cs.takeWhile Char.isDigit)
    · refine Or.inr (Or.inr (Or.inl ⟨digitsToNat (c :: cs.takeWhile Char.isDigit),
        cs.dropWhile Char.isDigit, dropWhile_length_le _ _, hOv, ?_, ?_⟩))
      · simp [lexStep, h1, h2, h3, h4, h5, h6, h7, h8, h9, h10, h11, h12, h13,
              h14, h15, h16, h17, h18, hOv]
      · simp [scanStep, h1, h2, h3, h4, h5, h6, h7, h8, h9, h10, h11, h12, h13,
              h14, h15, h16, h17, h18]
    · refine Or.inr (Or.inr (Or.inr ⟨digitsToNat (c :: cs.takeWhile Char.isDigit),
        cs.dropWhile Char.isDigit, dropWhile_length_le _ _, hOv, ?_, ?_⟩))
      · simp [lexStep, h1, h2, h3, h4, h5, h6, h7, h8, h9, h10, h11, h12, h13,
              h14, h15, h16, h17, h18, hOv]
      · simp [scanStep, h1, h2, h3, h4, h5, h6, h7, h8, h9, h10, h11, h12, h13,
              h14, h15, h16, h17, h18]
  by_cases h19 : c.isAlpha = true
  · refine Or.inr (Or.inl ⟨lookup_keyword (String.mk (c :: cs.takeWhile identChar)),
      cs.dropWhile identChar, dropWhile_length_le _ _, ?_, ?_⟩)
    · simp [lexStep, h1, h2, h3, h4, h5, h6, h7, h8, h9, h10, h11, h12, h13,
            h14, h15, h16, h17, h18, h19]
    · simp [scanStep, h1, h2, h3, h4, h5, h6, h7, h8, h9, h10, h11, h12, h13,
            h14, h15, h16, h17, h18, h19]
  · refine Or.inl ⟨cs, le_refl _, ?_, ?_⟩
    · simp [lexStep, h1, h2, h3, h4, h5, h6, h7, h8, h9, h10, h11, h12, h13,
            h14, h15, h16, h17, h18, h19]
    · simp [scanStep, h1, h2, h3, h4, h5, h6, h7, h8, h9, h10, h11, h12, h13,
            h14, h15, h16, h17, h18, h19]

/-- The last element survives consing onto a nonempty list. -/
theorem getLast?_cons_of_some (a : Token) (l : List Token) (x : Token)
    (h : l.getLast? = some x) : (a :: l).getLast? = some x := by
  cases l with
  | nil => simp at h
  | cons b t => simpa [List.getLast?] using h

/-- Every successful lexer run produces a token list ending in the
end-of-stream token. -/
theorem lexCore_last_eof :
    ∀ (n : Nat) (cs : List Char) (ts : List Token),
      lexCore n cs = some ts → ts.getLast? = some Token.eof := by
  intro n
  induction n with
  | zero =>
    intro cs ts h
    cases cs with
    | nil =>
      have h2 : some [Token.eof] = some ts := h
      injection h2 with h2
      subst h2
      rfl
    | cons c cs1 => exact Option.noConfusion h
  | succ k ih =>
    intro cs ts h
    cases cs with
    | nil =>
      have h2 : some [Token.eof] = some ts := h
      injection h2 with h2
      subst h2
      rfl
    | cons c cs1 =>
      replace h : lexStep (lexCore k) c cs1 = some ts := h
      rcases lexStep_scanStep_rel (lexCore k) (scanned_nums k) c cs1 with
        ⟨X, hX, hl, hs⟩ | ⟨t, X, hX, hl, hs⟩ | ⟨v, X, hX, hv, hl, hs⟩ |
        ⟨v, X, hX, hv, hl, hs⟩
      · rw [hl] at h
        exact ih _ _ h
      · rw [hl] at h
        rcases Option.map_eq_some'.mp h with ⟨ts1, hts1, rfl⟩
        exact getLast?_cons_of_some _ _ _ (ih _ _ hts1)
      · rw [hl] at h
        exact Option.noConfusion h
      · rw [hl] at h
        rcases Option.map_eq_some'.mp h with ⟨ts1, hts1, rfl⟩
        exact getLast?_cons_of_some _ _ _ (ih _ _ hts1)

/-- Given sufficient fuel (an upper bound on the remaining characters,
which also shows the fuel fallback of `lexCore` is unreachable), the
lexer fails exactly when one of the digit runs it scans in
numeric-literal position overflows `i64`. -/
theorem lexCore_none_iff :
    ∀ (n : Nat) (cs : List Char), cs.length ≤ n →
      (lexCore n cs = none ↔
        (scanned_nums n cs).any (fun v => decide (i64Max < v)) = true) := by
  intro n
  induction n with
  | zero =>
    intro cs hlen
    cases cs with
    | nil => simp [lexCore, scanned_nums]
    | cons c cs1 => simp at hlen
  | succ k ih =>
    intro cs hlen
    cases cs with
    | nil => simp [lexCore, scanned_nums]
    | cons c cs1 =>
      have hlen1 : cs1.length ≤ k := by
        simp only [List.length_cons] at hlen
        omega
      have e1 : lexCore (k + 1) (c :: cs1) = lexStep (lexCore k) c cs1 := rfl
      have e2 : scanned_nums (k + 1) (c :: cs1) = scanStep (scanned_nums k) c cs1 := rfl
      rw [e1, e2]
      rcases lexStep_scanStep_rel (lexCore k) (scanned_nums k) c cs1 with
        ⟨X, hX, hl, hs⟩ | ⟨t, X, hX, hl, hs⟩ | ⟨v, X, hX, hv, hl, hs⟩ |
        ⟨v, X, hX, hv, hl, hs⟩
      · rw [hl, hs]
        exact ih X (le_trans hX hlen1)
      · rw [hl, hs, Option.map_eq_none']
        exact ih X (le_trans hX hlen1)
      · rw [hl, hs]
        simp [hv]
      · rw [hl, hs, Option.map_eq_none']
        simp only [List.any_cons]
        rw [ih X (le_trans hX hlen1)]
        simp [hv]

/-- `C9` counterexample: the claim says `lex` fails if and only if the
input contains a maximal run of ASCII digits whose value does not fit
`i64`.  The input `a9223372036854775808` contains the maximal digit run
`9223372036854775808 = 2^63`, which does not fit `i64` — yet `lex`
succeeds, scanning the run as part of an identifier. -/
theorem c9_overflow_run_in_identifier_lexes :
    hasOverflowDigitRun "a9223372036854775808" = true ∧
    lex "a9223372036854775808" =
      some [Token.ident "a9223372036854775808", Token.eof] ∧
    lex "a9223372036854775808" ≠ none := by
  refine ⟨by decide, by decide, by decide⟩

/-- `C9` amended: `lex` fails if and only if one of the digit runs it
scans in numeric-literal position — not digits inside identifiers or
string literals — overflows `i64`; on every other input it returns a
nonempty token sequence whose final element is the end-of-stream
token. -/
theorem c9_amended_lex_none_iff_scanned_overflow :
    ∀ s : String,
      (lex s = none ↔ ∃ v ∈ scanned_nums s.data.length s.data, i64Max < v) ∧
      (∀ ts, lex s = some ts → ts ≠ [] ∧ ts.getLast? = some Token.eof) := by
  intro s
  constructor
  · have h := lexCore_none_iff s.data.length s.data (le_refl _)
    have e : lex s = lexCore s.data.length s.data := rfl
    rw [e, h, List.any_eq_true]
    simp
  · intro ts h
    have h2 := lexCore_last_eof s.data.length s.data ts h
    refine ⟨?_, h2⟩
    intro hnil
    subst hnil
    simp at h2

/-- Witness for `c9_amended_lex_none_iff_scanned_overflow`: on the
input `1`, the successful result is nonempty and ends with the
end-of-stream token. -/
theorem c9_amended_lex_none_iff_scanned_overflow_witness :
    ([Token.number 1, Token.eof] ≠ [] ∧
      ([Token.number 1, Token.eof] : List Token).getLast? = some Token.eof) :=
  (c9_amended_lex_none_iff_scanned_overflow "1").2 [Token.number 1, Token.eof]
    (by decide)

end RustKt
